import Mathlib

/-!
Shallow embedding of `StreamPlay/viking_file_handler.py` and verification of
its specification.  Python strings are modelled as `List Char`; `None`-able
values as `Option`; the network fetch and the HTML parser are external
collaborators, modelled respectively as a function `List Char → Option Document`
and as the `Document`/`Element` query data handed to the engine.
-/

/-- Characters of a string literal, the `List Char` model of a Python string. -/
def chars (s : String) : List Char := s.data

/-- Python `\s` on the ASCII range: space, tab, newline, carriage return,
vertical tab and form feed. -/
def isWsChar (c : Char) : Bool :=
  c == ' ' || c == '\t' || c == '\n' || c == '\r' || c == Char.ofNat 11 || c == Char.ofNat 12

/-- The character class `[a-zA-Z0-9]` used by the identifier patterns, and
`[a-z0-9]` under `re.IGNORECASE` in the file-type pattern. -/
def isAlnumChar (c : Char) : Bool := c.isAlpha || c.isDigit

/-- The character class `[^\s<>"]` of the strategy-3 URL patterns. -/
def isUrlChar (c : Char) : Bool := !(isWsChar c || c == '<' || c == '>' || c == '"')

/-- Python `str.lower()` (ASCII model). -/
def lowerStr (s : List Char) : List Char := s.map Char.toLower

/-- Case-insensitive literal match at the start of `s` (a literal pattern
compiled with `re.IGNORECASE`, attempted at one position). -/
def ciPrefixOf (pat s : List Char) : Bool := (lowerStr pat).isPrefixOf (lowerStr s)

/-- Python substring containment `pat in s`. -/
def containsSub (pat : List Char) : List Char → Bool
  | [] => pat.isEmpty
  | c :: cs => pat.isPrefixOf (c :: cs) || containsSub pat cs

/-- `re.search` of a literal alternation such as `(1080p|720p|...)` under
`re.IGNORECASE`: the match at the leftmost matching position wins, alternatives
are tried in order at each position, and `group(1)` is the matched slice of the
input itself (original casing). -/
def firstAltMatch (alts : List (List Char)) : List Char → Option (List Char)
  | [] => none
  | c :: cs =>
    match alts.find? (fun a => ciPrefixOf a (c :: cs)) with
    | some a => some ((c :: cs).take a.length)
    | none => firstAltMatch alts cs

/-- `re.search` with an arbitrary single-position matcher `tryp`: positions are
scanned left to right and the first position where `tryp` succeeds wins. -/
def reSearchWith (tryp : List Char → Option (List Char)) : List Char → Option (List Char)
  | [] => none
  | c :: cs =>
    match tryp (c :: cs) with
    | some g => some g
    | none => reSearchWith tryp cs

/-- Maximal leading run of `[a-zA-Z0-9]` characters (the greedy `([a-zA-Z0-9]+)`
group of the identifier patterns, minus the non-emptiness requirement). -/
def takeAlnum : List Char → List Char
  | [] => []
  | c :: cs => if isAlnumChar c then c :: takeAlnum cs else []

/-- The first character of `t`, if any, is not alphanumeric: the condition
under which an alphanumeric run followed by `t` is maximal. -/
def headNotAlnum : List Char → Bool
  | [] => true
  | c :: _ => !isAlnumChar c

/-- One attempt of an identifier pattern `<lit>([a-zA-Z0-9]+)` at the start of
`s`: the literal part must match exactly, then the capturing group takes the
maximal non-empty alphanumeric run. -/
def tryAt (lit s : List Char) : Option (List Char) :=
  if lit.isPrefixOf s then
    if (takeAlnum (s.drop lit.length)).isEmpty then none
    else some (takeAlnum (s.drop lit.length))
  else none

/-- `re.search` of one identifier pattern `<lit>([a-zA-Z0-9]+)` over `s`. -/
def reSearchIdPat (lit s : List Char) : Option (List Char) := reSearchWith (tryAt lit) s

/-- The four identifier patterns of `VikingFileExtractor.extract_file_id`, in
source order; `\.` denotes a literal dot so each pattern is a literal prefix
followed by the capturing group. -/
def idPat1 : List Char := chars "vik1ngfile.site/f/"

/-- Second identifier pattern (host-qualified `/file/`). -/
def idPat2 : List Char := chars "vik1ngfile.site/file/"

/-- Third identifier pattern (path-only `/f/`). -/
def idPat3 : List Char := chars "/f/"

/-- Fourth identifier pattern (path-only `/file/`). -/
def idPat4 : List Char := chars "/file/"

/-- `VikingFileExtractor.extract_file_id`: try the four patterns in order and
return the first capturing-group match, `none` when none of them matches. -/
def extract_file_id (url : List Char) : Option (List Char) :=
  match reSearchIdPat idPat1 url with
  | some g => some g
  | none =>
    match reSearchIdPat idPat2 url with
    | some g => some g
    | none =>
      match reSearchIdPat idPat3 url with
      | some g => some g
      | none => reSearchIdPat idPat4 url

/-- `VikingFileExtractor.BASE_URL`. -/
def BASE_URL : List Char := chars "https://vik1ngfile.site"

/-- The URL normalization applied by strategy 1 of
`VikingFileExtractor._extract_download_links` (the Link Normalizer of §4.2):
`href` unchanged when it starts with `http`, `BASE_URL + href` when it starts
with `/`, and `BASE_URL + "/" + href` otherwise. -/
def normalizeLink (href : List Char) : List Char :=
  if (chars "http").isPrefixOf href then href
  else if (chars "/").isPrefixOf href then BASE_URL ++ href
  else BASE_URL ++ chars "/" ++ href

/-- Whether a reference string starts with a URI scheme in the RFC 3986 sense:
a letter followed by letters/digits/`+`/`-`/`.` up to a `:`.  This definition
follows the spec's words in §4.2 ("unchanged if the reference already starts
with a scheme") for comparison with the source's `startswith('http')` test. -/
def hasSchemeTail : List Char → Bool
  | [] => false
  | c :: cs =>
    if c == ':' then true
    else (isAlnumChar c || c == '+' || c == '-' || c == '.') && hasSchemeTail cs

/-- See `hasSchemeTail`: spec-side notion of "starts with a scheme". -/
def startsWithScheme : List Char → Bool
  | [] => false
  | c :: cs => c.isAlpha && hasSchemeTail cs

/-- The quality alternation of `VikingFileExtractor._extract_quality` (§4.3),
in source order. -/
def qualityAlts10 : List (List Char) :=
  [chars "1080p", chars "720p", chars "480p", chars "360p", chars "4K",
   chars "2K", chars "HD", chars "SD", chars "FHD", chars "UHD"]

/-- The reduced quality alternation used inline by strategy 3
(`r'(1080p|720p|480p|360p|4K|2K)'`), in source order. -/
def qualityAlts6 : List (List Char) :=
  [chars "1080p", chars "720p", chars "480p", chars "360p", chars "4K", chars "2K"]

/-- `VikingFileExtractor._extract_quality`: first case-insensitive occurrence of
a known quality token, or `none`. -/
def extract_quality (text : List Char) : Option (List Char) :=
  firstAltMatch qualityAlts10 text

/-- `re.search(r'\.([a-z0-9]+)(?:\?|$)', url, re.IGNORECASE)`: leftmost dot
followed by a maximal non-empty alphanumeric run that is itself followed by a
`?` or the end of the input; returns the run (`group(1)`). -/
def extSearch : List Char → Option (List Char)
  | [] => none
  | c :: cs =>
    if c == '.' then
      let run := cs.takeWhile isAlnumChar
      if run.isEmpty then extSearch cs
      else
        match cs.drop run.length with
        | [] => some run
        | q :: _ => if q == '?' then some run else extSearch cs
    else extSearch cs

/-- Worker for `removeAll`: while `skip > 0` the current character belongs to
an occurrence already being removed; at `skip = 0` the next occurrence of the
pattern is looked for. -/
def removeAllAux (pat : List Char) : Nat → List Char → List Char
  | _, [] => []
  | Nat.succ k, _ :: cs => removeAllAux pat k cs
  | 0, c :: cs =>
    if pat.isPrefixOf (c :: cs) then removeAllAux pat (pat.length - 1) cs
    else c :: removeAllAux pat 0 cs

/-- Python `str.replace(pat, '')` for a pattern: removes every non-overlapping
occurrence, scanning left to right. -/
def removeAll (pat s : List Char) : List Char := removeAllAux pat 0 s

/-- Python `str.rstrip('"\'>')` as applied to strategy-3 matches. -/
def rstripQuotes (s : List Char) : List Char :=
  (s.reverse.dropWhile (fun c => c == '"' || c == '\'' || c == '>')).reverse

/-- `DownloadLink` record of the source (url, quality, source, file_size,
file_type). -/
structure DownloadLink where
  url : List Char
  quality : Option (List Char)
  source : List Char
  file_size : Option (List Char)
  file_type : Option (List Char)
deriving DecidableEq, Repr

/-- `VikingFileInfo` record of the source. -/
structure VikingFileInfo where
  file_id : List Char
  file_name : Option (List Char)
  file_size : Option (List Char)
  upload_date : Option (List Char)
  download_links : List DownloadLink
  page_url : List Char
deriving DecidableEq, Repr

/-- An HTML element as exposed by the document-parser collaborator (§6):
tag name, class attribute values, BeautifulSoup's `.string` (used by the
strategy-1 `string=` filter), `get_text()` (`rawText`),
`get_text(strip=True)` (`text`), the `datetime` attribute, and the `href`
attribute. -/
structure Element where
  tag : List Char
  classes : List (List Char)
  stringVal : Option (List Char)
  rawText : List Char
  text : List Char
  datetimeAttr : Option (List Char)
  href : Option (List Char)
deriving DecidableEq, Repr

/-- A parsed page as exposed by the document-parser collaborator: the element
tree (`elements`, queried by the strategies and metadata extractors),
`str(soup)` (`serialized`, scanned by strategy 3) and `soup.get_text()`
(`textContent`, scanned by the file-size extractor). -/
structure Document where
  elements : List Element
  serialized : List Char
  textContent : List Char
deriving DecidableEq, Repr

/-- `re.search(r'download|Download|DOWNLOAD', s, re.IGNORECASE)` on an
element's string: a case-insensitive occurrence of the literal `download`. -/
def isDownloadText (s : List Char) : Bool := containsSub (chars "download") (lowerStr s)

/-- `soup.find_all(['a', 'button'], string=re.compile(r'download|...', re.IGNORECASE))`:
the elements scanned by strategy 1. -/
def downloadElements (d : Document) : List Element :=
  d.elements.filter (fun e =>
    (e.tag == chars "a" || e.tag == chars "button") &&
      (match e.stringVal with
       | some s => isDownloadText s
       | none => false))

/-- One strategy-1 step: `element.get('href')`, skip falsy (`None` or empty)
targets, normalize, infer quality from `element.get_text()`, and append with
`source = "viking"` — with no duplicate check. -/
def strat1Step (acc : List DownloadLink) (e : Element) : List DownloadLink :=
  match e.href with
  | none => acc
  | some h =>
    if h.isEmpty then acc
    else acc ++ [⟨normalizeLink h, extract_quality e.rawText, chars "viking", none, none⟩]

/-- The `file_hosts` list of strategy 2, in source order. -/
def file_hosts : List (List Char) :=
  [chars "drive.google.com", chars "gdtot", chars "hubcloud", chars "filepress",
   chars "pixeldrain", chars "mediafire", chars "mega.nz", chars "dropbox",
   chars "streamtape", chars "doodstream", chars "mixdrop", chars "upstream"]

/-- `soup.find_all('a', href=True)` projected to the `href` values strategy 2
iterates over (`link.get('href', '')`). -/
def strat2Hrefs (d : Document) : List (List Char) :=
  (d.elements.filter (fun e => e.tag == chars "a" && e.href.isSome)).map
    (fun e => e.href.getD [])

/-- The strategy-2 source loop: `source = "viking"`, then the first host
substring contained in `href.lower()` wins, stripped via
`host.replace('.com', '').replace('.nz', '')`. -/
def strat2Source (href : List Char) : List Char :=
  match file_hosts.find? (fun h => containsSub h (lowerStr href)) with
  | some h => removeAll (chars ".nz") (removeAll (chars ".com") h)
  | none => chars "viking"

/-- The spec's wording for source classification (§4.4, strategy 2): the
matching host substring "stripped of a trailing `.com` or `.nz` suffix if
present". -/
def hostSuffixStripped (h : List Char) : List Char :=
  if (chars ".com").isSuffixOf h then h.take (h.length - 4)
  else if (chars ".nz").isSuffixOf h then h.take (h.length - 3)
  else h

/-- One strategy-2 step: if the lower-cased target contains a known host
substring and no accumulated link already has this exact `url`, append the raw
target with the classified source. -/
def strat2Step (acc : List DownloadLink) (href : List Char) : List DownloadLink :=
  if file_hosts.any (fun h => containsSub h (lowerStr href)) then
    if acc.any (fun dl => dl.url == href) then acc
    else acc ++ [⟨href, none, strat2Source href, none, none⟩]
  else acc

/-- `https?://` under `re.IGNORECASE` at the start of `s`: the greedy optional
`s?` tries the longer form first.  Returns the number of consumed characters. -/
def schemeLen (s : List Char) : Option Nat :=
  if ciPrefixOf (chars "https://") s then some 8
  else if ciPrefixOf (chars "http://") s then some 7
  else none

/-- The media-extension alternation `(?:mp4|mkv|avi|mov|wmv|flv|webm|m3u8)` of
the first strategy-3 pattern, in source order. -/
def extAlts : List (List Char) :=
  [chars "mp4", chars "mkv", chars "avi", chars "mov", chars "wmv",
   chars "flv", chars "webm", chars "m3u8"]

/-- Length of the first media-extension alternative matching (case-insensitively)
at the start of `s`. -/
def tryExtLen (s : List Char) : Option Nat :=
  (extAlts.find? (fun a => ciPrefixOf a s)).map List.length

/-- Backtracking of the greedy `[^\s<>"]+` against `\.(?:ext)` inside the
maximal URL-character run: the largest split `j ≥ 1` with a dot at `j` and an
extension alternative after it wins.  Returns that `j` and the extension
length. -/
def bestDot (run : List Char) : Option (Nat × Nat) :=
  (List.range run.length).foldl
    (fun best j =>
      if j == 0 then best
      else if run.get? j == some '.' then
        match tryExtLen (run.drop (j + 1)) with
        | some L => some (j, L)
        | none => best
      else best)
    none

/-- One attempt of `https?://[^\s<>"]+\.(?:mp4|...)` at the start of `s`:
returns the length of the match. -/
def tryPatA (s : List Char) : Option Nat :=
  match schemeLen s with
  | none => none
  | some k =>
    let run := (s.drop k).takeWhile isUrlChar
    match bestDot run with
    | some (j, L) => some (k + j + 1 + L)
    | none => none

/-- One attempt of `https?://[^\s<>"]+<mid>[^\s<>"]+` (with `<mid>` the literal
`/download/` or `/dl/`) at the start of `s`: both `+` groups are greedy, so on
success the match always extends to the end of the maximal URL-character run;
it exists iff the literal occurs (case-insensitively) inside the run with at
least one character on each side. -/
def tryPatMid (mid : List Char) (s : List Char) : Option Nat :=
  match schemeLen s with
  | none => none
  | some k =>
    let run := (s.drop k).takeWhile isUrlChar
    if (List.range run.length).any (fun j =>
        j != 0 && ciPrefixOf mid (run.drop j) && decide (j + mid.length < run.length)) then
      some (k + run.length)
    else none

/-- Worker for `reFinditer`: while `skip > 0` the current position lies inside
the previous match (non-overlapping semantics); at `skip = 0` the pattern is
attempted. -/
def reFinditerAux (tryPat : List Char → Option Nat) : Nat → List Char → List (List Char)
  | _, [] => []
  | Nat.succ k, _ :: cs => reFinditerAux tryPat k cs
  | 0, c :: cs =>
    match tryPat (c :: cs) with
    | some n => (c :: cs).take n :: reFinditerAux tryPat (n - 1) cs
    | none => reFinditerAux tryPat 0 cs

/-- `re.finditer` with a single-position matcher returning a match length:
positions are scanned left to right and scanning resumes after each
(non-overlapping) match.  Returns the matched slices. -/
def reFinditer (tryPat : List Char → Option Nat) (s : List Char) : List (List Char) :=
  reFinditerAux tryPat 0 s

/-- The three `direct_file_patterns` of strategy 3 applied in source order to
`str(soup)`, all matches concatenated in processing order. -/
def strat3Matches (text : List Char) : List (List Char) :=
  reFinditer tryPatA text ++
    reFinditer (tryPatMid (chars "/download/")) text ++
    reFinditer (tryPatMid (chars "/dl/")) text

/-- One strategy-3 step: strip trailing `"`/`'`/`>` characters, skip when some
accumulated link already has this `url`, otherwise append with the inline
six-token quality inference, `source = "direct"` and the inferred file type. -/
def strat3Step (acc : List DownloadLink) (m : List Char) : List DownloadLink :=
  if acc.any (fun dl => dl.url == rstripQuotes m) then acc
  else
    acc ++ [⟨rstripQuotes m, firstAltMatch qualityAlts6 (rstripQuotes m), chars "direct",
      none, extSearch (rstripQuotes m)⟩]

/-- Accumulated links after strategy 1. -/
def strat1Links (d : Document) : List DownloadLink :=
  (downloadElements d).foldl strat1Step []

/-- Accumulated links after strategy 2, continuing from `acc`. -/
def strat2Links (d : Document) (acc : List DownloadLink) : List DownloadLink :=
  (strat2Hrefs d).foldl strat2Step acc

/-- Accumulated links after strategy 3 over the serialized document, continuing
from `acc`. -/
def strat3Links (text : List Char) (acc : List DownloadLink) : List DownloadLink :=
  (strat3Matches text).foldl strat3Step acc

/-- `VikingFileExtractor._extract_download_links`: the three strategies in
fixed order over one shared accumulator.  (The `page_url` argument is accepted
but, as in the source, unused.) -/
def extract_download_links (d : Document) (page_url : List Char) : List DownloadLink :=
  strat3Links d.serialized (strat2Links d (strat1Links d))

/-- `soup.find(tag, attrs)` as exposed by the parser collaborator: the first
element with the given tag whose class attribute contains the requested class
(no class constraint when `cls = none`). -/
def findTagCls (es : List Element) (tag : List Char) (cls : Option (List Char)) : Option Element :=
  es.find? (fun e =>
    e.tag == tag &&
      (match cls with
       | none => true
       | some c => e.classes.contains c))

/-- The selector list of `VikingFileExtractor._extract_file_name`, in source
order. -/
def nameSelectors : List (List Char × Option (List Char)) :=
  [(chars "h1", some (chars "file-name")), (chars "h2", some (chars "file-name")),
   (chars "div", some (chars "file-name")), (chars "span", some (chars "file-name")),
   (chars "h1", none), (chars "title", none)]

/-- The selector fallback loop of `_extract_file_name`: first selector whose
element exists and has non-empty stripped text wins. -/
def firstNameHit (d : Document) : List (List Char × Option (List Char)) → Option (List Char)
  | [] => none
  | (tag, cls) :: rest =>
    match findTagCls d.elements tag cls with
    | some e => if e.text.isEmpty then firstNameHit d rest else some e.text
    | none => firstNameHit d rest

/-- `VikingFileExtractor._extract_file_name`. -/
def extract_file_name (d : Document) : Option (List Char) :=
  firstNameHit d nameSelectors

/-- The character class `[0-9.]` of the size patterns. -/
def isSizeDigit (c : Char) : Bool := c.isDigit || c == '.'

/-- The character class `[:\s]` separating `Size` from the size token. -/
def isDelimChar (c : Char) : Bool := c == ':' || isWsChar c

/-- `([0-9.]+\s*[KMGT]B)` attempted at the start of `s` (case-insensitively
when `ci` is true): greedy digit/dot run, optional whitespace, a unit letter
and `B`; all three greedy parts range over disjoint character sets, so maximal
munch reproduces the regex.  Returns the matched slice (`group(1)`). -/
def sizeTokenAt (ci : Bool) (s : List Char) : Option (List Char) :=
  let run := s.takeWhile isSizeDigit
  if run.isEmpty then none
  else
    let rest := s.drop run.length
    let ws := rest.takeWhile isWsChar
    match rest.drop ws.length with
    | u :: b :: _ =>
      if (if ci then
            u.toUpper == 'K' || u.toUpper == 'M' || u.toUpper == 'G' || u.toUpper == 'T'
          else
            u == 'K' || u == 'M' || u == 'G' || u == 'T') &&
         (if ci then b.toUpper == 'B' else b == 'B') then
        some (run ++ ws ++ [u, b])
      else none
    | _ => none

/-- `r'Size[:\s]+([0-9.]+\s*[KMGT]B)'` with `re.IGNORECASE`, attempted at one
position. -/
def trySizePat1 (s : List Char) : Option (List Char) :=
  if ciPrefixOf (chars "size") s then
    let rest := s.drop 4
    let ds := rest.takeWhile isDelimChar
    if ds.isEmpty then none else sizeTokenAt true (rest.drop ds.length)
  else none

/-- `r'File\s+Size[:\s]+([0-9.]+\s*[KMGT]B)'` with `re.IGNORECASE`, attempted
at one position. -/
def trySizePat2 (s : List Char) : Option (List Char) :=
  if ciPrefixOf (chars "file") s then
    let r1 := s.drop 4
    let ws := r1.takeWhile isWsChar
    if ws.isEmpty then none
    else
      let r2 := r1.drop ws.length
      if ciPrefixOf (chars "size") r2 then
        let r3 := r2.drop 4
        let ds := r3.takeWhile isDelimChar
        if ds.isEmpty then none else sizeTokenAt true (r3.drop ds.length)
      else none
  else none

/-- `VikingFileExtractor._extract_file_size`: the three size patterns tried in
source order over `soup.get_text()` (the third one case-sensitively). -/
def extract_file_size (d : Document) : Option (List Char) :=
  match reSearchWith trySizePat1 d.textContent with
  | some g => some g
  | none =>
    match reSearchWith trySizePat2 d.textContent with
    | some g => some g
    | none => reSearchWith (sizeTokenAt false) d.textContent

/-- The selector list of `VikingFileExtractor._extract_upload_date`, in source
order. -/
def dateSelectors : List (List Char × Option (List Char)) :=
  [(chars "span", some (chars "upload-date")), (chars "div", some (chars "upload-date")),
   (chars "time", none)]

/-- The fallback loop of `_extract_upload_date`: a found element's `datetime`
attribute wins outright, else its non-empty stripped text, else the next
selector. -/
def firstDateHit (d : Document) : List (List Char × Option (List Char)) → Option (List Char)
  | [] => none
  | (tag, cls) :: rest =>
    match findTagCls d.elements tag cls with
    | some e =>
      match e.datetimeAttr with
      | some v => some v
      | none => if e.text.isEmpty then firstDateHit d rest else some e.text
    | none => firstDateHit d rest

/-- `VikingFileExtractor._extract_upload_date`. -/
def extract_upload_date (d : Document) : Option (List Char) :=
  firstDateHit d dateSelectors

/-- The `ValueError` message raised by `get_download_links`. -/
def errMsg (url : List Char) : List Char :=
  chars "Could not extract file ID from URL: " ++ url

/-- `VikingFileExtractor.get_download_links`.  The network fetch (session +
BeautifulSoup parse) is the external collaborator `fetch`; `none` models a
`requests.exceptions.RequestException` (connection error, timeout, or non-2xx
via `raise_for_status`), which the source catches and recovers from by
returning the partially filled record. -/
def get_download_links (fetch : List Char → Option Document) (url : List Char) :
    Except (List Char) VikingFileInfo :=
  match extract_file_id url with
  | none => Except.error (errMsg url)
  | some fid =>
    if fid.isEmpty then Except.error (errMsg url)
    else
      let purl := if (chars "http").isPrefixOf url then url else BASE_URL ++ chars "/f/" ++ fid
      match fetch purl with
      | none => Except.ok ⟨fid, none, none, none, [], purl⟩
      | some doc =>
        Except.ok ⟨fid, extract_file_name doc, extract_file_size doc, extract_upload_date doc,
          extract_download_links doc purl, purl⟩

/-- Whether an `Except` result is an error (a raised Python exception). -/
def isErr : Except (List Char) VikingFileInfo → Bool
  | Except.error _ => true
  | Except.ok _ => false

/-- A Python value as it appears in the (de)serialization dictionaries:
`None`, a string, a list, or a nested dictionary. -/
inductive PyVal where
  | pynone : PyVal
  | pystr : List Char → PyVal
  | pylist : List PyVal → PyVal
  | pydict : List (List Char × PyVal) → PyVal

/-- Dictionary lookup: `some v` when the key is present (Python `k in d`),
`none` when absent. -/
def pyGet (d : List (List Char × PyVal)) (k : List Char) : Option PyVal :=
  (d.find? (fun p => p.1 == k)).map (fun p => p.2)

/-- `data.get(k, default)` for a string-valued field: the default on a missing
key, the string when present.  A present non-string value is outside the typed
embedding and yields `none` (overall failure). -/
def asStr (v : Option PyVal) (default : List Char) : Option (List Char) :=
  match v with
  | none => some default
  | some (PyVal.pystr s) => some s
  | some _ => none

/-- `data.get(k)` for an optional string field: absence and a present `None`
both give `none`; a present string gives `some`. -/
def asOptStr (v : Option PyVal) : Option (Option (List Char)) :=
  match v with
  | none => some none
  | some PyVal.pynone => some none
  | some (PyVal.pystr s) => some (some s)
  | some _ => none

/-- Serialization of an optional string field in `to_dict` (`None` for an
absent value). -/
def optStrVal : Option (List Char) → PyVal
  | none => PyVal.pynone
  | some s => PyVal.pystr s

/-- `DownloadLink.to_dict`. -/
def DownloadLink.to_dict (dl : DownloadLink) : List (List Char × PyVal) :=
  [(chars "url", PyVal.pystr dl.url),
   (chars "quality", optStrVal dl.quality),
   (chars "source", PyVal.pystr dl.source),
   (chars "file_size", optStrVal dl.file_size),
   (chars "file_type", optStrVal dl.file_type)]

/-- `DownloadLink.from_dict`: each field via `data.get` with the documented
default. -/
def DownloadLink.from_dict (d : List (List Char × PyVal)) : Option DownloadLink :=
  match asStr (pyGet d (chars "url")) [], asOptStr (pyGet d (chars "quality")),
      asStr (pyGet d (chars "source")) (chars "viking"),
      asOptStr (pyGet d (chars "file_size")), asOptStr (pyGet d (chars "file_type")) with
  | some u, some q, some src, some fs, some ft => some ⟨u, q, src, fs, ft⟩
  | _, _, _, _, _ => none

/-- `VikingFileInfo.to_dict`. -/
def VikingFileInfo.to_dict (v : VikingFileInfo) : List (List Char × PyVal) :=
  [(chars "file_id", PyVal.pystr v.file_id),
   (chars "file_name", optStrVal v.file_name),
   (chars "file_size", optStrVal v.file_size),
   (chars "upload_date", optStrVal v.upload_date),
   (chars "download_links", PyVal.pylist (v.download_links.map (fun l => PyVal.pydict l.to_dict))),
   (chars "page_url", PyVal.pystr v.page_url)]

/-- Deserialization of one entry of the `download_links` list (a nested
dictionary). -/
def linkOfVal : PyVal → Option DownloadLink
  | PyVal.pydict dd => DownloadLink.from_dict dd
  | _ => none

/-- `data.get('download_links', [])` followed by the element-wise
`DownloadLink.from_dict` comprehension. -/
def linksOfVal (v : Option PyVal) : Option (List DownloadLink) :=
  match v with
  | none => some []
  | some (PyVal.pylist l) => l.mapM linkOfVal
  | some _ => none

/-- `VikingFileInfo.from_dict`. -/
def VikingFileInfo.from_dict (d : List (List Char × PyVal)) : Option VikingFileInfo :=
  match asStr (pyGet d (chars "file_id")) [], asOptStr (pyGet d (chars "file_name")),
      asOptStr (pyGet d (chars "file_size")), asOptStr (pyGet d (chars "upload_date")),
      linksOfVal (pyGet d (chars "download_links")),
      asStr (pyGet d (chars "page_url")) [] with
  | some fid, some fn, some fs, some ud, some dls, some pu => some ⟨fid, fn, fs, ud, dls, pu⟩
  | _, _, _, _, _, _ => none

/-- A link `l` whose `url` differs from that of every accumulated link — the
admission condition of the deduplication guard. -/
def urlFresh (acc : List DownloadLink) (l : DownloadLink) : Prop :=
  ∀ x ∈ acc, x.url ≠ l.url

/-- `DedupExt base ext`: each link of the extension `ext` was admitted with a
`url` distinct from every link accumulated before it (`base` plus the earlier
part of `ext`). -/
def DedupExt (base : List DownloadLink) : List DownloadLink → Prop
  | [] => True
  | l :: ls => urlFresh base l ∧ DedupExt (base ++ [l]) ls

/-- An anchor whose visible text is `Download` and whose target is `/d/x`. -/
def dupAnchor : Element :=
  ⟨chars "a", [], some (chars "Download"), chars "Download", chars "Download",
   none, some (chars "/d/x")⟩

/-- A page containing the anchor `dupAnchor` twice: both anchors pass the
strategy-1 filter, and both also appear among the `href`-carrying anchors
scanned by strategy 2. -/
def dupDoc : Document :=
  ⟨[dupAnchor, dupAnchor],
   chars "<a href=\"/d/x\">Download</a><a href=\"/d/x\">Download</a>",
   chars "DownloadDownload"⟩

/-- A page whose serialized markup contains one bare direct media URL whose
only quality token is `hd`. -/
def hdDoc : Document :=
  ⟨[], chars "<p>http://cdn.example/movie_hd.mp4</p>",
   chars "http://cdn.example/movie_hd.mp4"⟩

/-- The direct media URL occurring in `hdDoc`. -/
def hdUrl : List Char := chars "http://cdn.example/movie_hd.mp4"

/-- A sample page URL. -/
def samplePageUrl : List Char := chars "https://vik1ngfile.site/f/oDAbw3OOmy"


/-! ## Helper lemmas -/

/-- A list is a prefix (in the `isPrefixOf` sense) of itself followed by
anything. -/
theorem isPrefixOf_app (l r : List Char) : l.isPrefixOf (l ++ r) = true := by
  induction l with
  | nil => simp [List.isPrefixOf]
  | cons c cs ih => simp [List.isPrefixOf, ih]

/-- `isPrefixOf` is stable under extending the right-hand list. -/
theorem isPrefixOf_app_of (l m r : List Char) (h : l.isPrefixOf m = true) :
    l.isPrefixOf (m ++ r) = true := by
  induction l generalizing m with
  | nil => simp [List.isPrefixOf]
  | cons c cs ih =>
    cases m with
    | nil => simp [List.isPrefixOf] at h
    | cons b bs =>
      simp only [List.isPrefixOf, Bool.and_eq_true] at h ⊢
      exact ⟨h.1, ih bs h.2⟩

/-- The greedy alphanumeric run takes exactly `id` out of `id ++ t` when `id`
is alphanumeric and `t` does not continue the run. -/
theorem takeAlnum_app (id t : List Char) (h1 : ∀ c ∈ id, isAlnumChar c = true)
    (h2 : headNotAlnum t = true) : takeAlnum (id ++ t) = id := by
  induction id with
  | nil =>
    cases t with
    | nil => rfl
    | cons c t' =>
      have hc : isAlnumChar c = false := by simpa [headNotAlnum] using h2
      simp [takeAlnum, hc]
  | cons c cs ih =>
    have hc : isAlnumChar c = true := h1 c (by simp)
    simp only [List.cons_append, takeAlnum, hc, if_true]
    rw [List.append_eq, ih (fun d hd => h1 d (by simp [hd]))]

/-- An identifier-pattern attempt at its own occurrence site succeeds with
exactly the delimited alphanumeric run. -/
theorem tryAt_hit (lit id t : List Char) (hid : id ≠ [])
    (h1 : ∀ c ∈ id, isAlnumChar c = true) (h2 : headNotAlnum t = true) :
    tryAt lit (lit ++ (id ++ t)) = some id := by
  unfold tryAt
  rw [isPrefixOf_app, if_pos rfl, List.drop_left, takeAlnum_app id t h1 h2]
  cases id with
  | nil => exact absurd rfl hid
  | cons c cs => rfl

/-- Unfolding equation of `reSearchWith` at a non-empty input. -/
theorem reSearchWith_cons (tryp : List Char → Option (List Char)) (c : Char) (cs : List Char) :
    reSearchWith tryp (c :: cs) =
      match tryp (c :: cs) with
      | some g => some g
      | none => reSearchWith tryp cs := rfl

/-- Scanning may skip a leading region in which every attempt fails. -/
theorem reSearchWith_skip (tryp : List Char → Option (List Char)) (p rest : List Char)
    (H : ∀ q, q <:+ p → q ≠ [] → tryp (q ++ rest) = none) :
    reSearchWith tryp (p ++ rest) = reSearchWith tryp rest := by
  induction p with
  | nil => simp
  | cons c p' ih =>
    have h0 : tryp (c :: (p' ++ rest)) = none :=
      H (c :: p') (List.suffix_refl _) (by simp)
    have step : reSearchWith tryp (c :: (p' ++ rest)) = reSearchWith tryp (p' ++ rest) := by
      rw [reSearchWith_cons, h0]
    rw [List.cons_append, step]
    exact ih (fun q hq hne => H q (hq.trans (List.suffix_cons c p')) hne)

/-- Scanning a non-empty input whose very first attempt succeeds returns that
match. -/
theorem reSearchWith_head_some (tryp : List Char → Option (List Char)) (s g : List Char)
    (hs : s ≠ []) (h : tryp s = some g) : reSearchWith tryp s = some g := by
  cases s with
  | nil => exact absurd rfl hs
  | cons c cs => rw [reSearchWith_cons, h]

/-- `re.search` of an identifier pattern over a URL made of an occurrence-free
region, the literal, the identifier and a non-alphanumeric tail finds exactly
the identifier. -/
theorem reSearchIdPat_hit (lit p id t : List Char) (hlit : lit ≠ []) (hid : id ≠ [])
    (h1 : ∀ c ∈ id, isAlnumChar c = true) (h2 : headNotAlnum t = true)
    (H : ∀ q, q <:+ p → q ≠ [] → tryAt lit (q ++ (lit ++ (id ++ t))) = none) :
    reSearchIdPat lit (p ++ (lit ++ (id ++ t))) = some id := by
  unfold reSearchIdPat
  rw [reSearchWith_skip _ p _ H]
  refine reSearchWith_head_some _ _ _ ?_ (tryAt_hit lit id t hid h1 h2)
  cases lit with
  | nil => exact absurd rfl hlit
  | cons a as => simp

/-- A successful identifier-pattern attempt never captures an empty group. -/
theorem tryAt_some_ne_nil {lit s g : List Char} (h : tryAt lit s = some g) : g ≠ [] := by
  unfold tryAt at h
  split at h
  · split at h
    · exact absurd h (by simp)
    · rename_i hne
      cases h
      intro hg
      rw [hg] at hne
      exact hne rfl
  · exact absurd h (by simp)

/-- `reSearchWith` only returns groups its matcher can return. -/
theorem reSearchWith_some_ne_nil {tryp : List Char → Option (List Char)}
    (P : ∀ s g, tryp s = some g → g ≠ []) :
    ∀ s g, reSearchWith tryp s = some g → g ≠ [] := by
  intro s
  induction s with
  | nil =>
    intro g h
    simp [reSearchWith] at h
  | cons c cs ih =>
    intro g h
    rw [reSearchWith_cons] at h
    cases htry : tryp (c :: cs) with
    | some g' =>
      rw [htry] at h
      cases h
      exact P _ _ htry
    | none =>
      rw [htry] at h
      exact ih g h

/-- The identifier resolver never resolves an empty identifier (each pattern's
capturing group is non-empty), so the Python falsiness test `not file_id`
coincides with absence. -/
theorem extract_file_id_some_ne_nil {url g : List Char}
    (h : extract_file_id url = some g) : g ≠ [] := by
  unfold extract_file_id at h
  have P : ∀ lit s g', reSearchIdPat lit s = some g' → g' ≠ [] := fun lit s g' hh =>
    reSearchWith_some_ne_nil (fun _ _ hx => tryAt_some_ne_nil hx) s g' hh
  cases h1 : reSearchIdPat idPat1 url with
  | some g1 =>
    rw [h1] at h
    cases h
    exact P _ _ _ h1
  | none =>
    rw [h1] at h
    cases h2 : reSearchIdPat idPat2 url with
    | some g2 =>
      rw [h2] at h
      cases h
      exact P _ _ _ h2
    | none =>
      rw [h2] at h
      cases h3 : reSearchIdPat idPat3 url with
      | some g3 =>
        rw [h3] at h
        cases h
        exact P _ _ _ h3
      | none =>
        rw [h3] at h
        exact P _ _ _ h

/-- A fold whose step only ever appends links satisfying `P` yields an
extension whose links all satisfy `P`. -/
theorem foldl_tail_prop {α : Type} (step : List DownloadLink → α → List DownloadLink)
    (P : DownloadLink → Prop)
    (hstep : ∀ acc x, ∃ tl, step acc x = acc ++ tl ∧ ∀ l ∈ tl, P l) :
    ∀ (xs : List α) (acc : List DownloadLink),
      ∃ ext, xs.foldl step acc = acc ++ ext ∧ ∀ l ∈ ext, P l := by
  intro xs
  induction xs with
  | nil =>
    intro acc
    exact ⟨[], by simp, by simp⟩
  | cons x xs ih =>
    intro acc
    obtain ⟨tl, h1, h2⟩ := hstep acc x
    obtain ⟨ext, h3, h4⟩ := ih (step acc x)
    refine ⟨tl ++ ext, ?_, ?_⟩
    · rw [List.foldl_cons, h3, h1, List.append_assoc]
    · intro l hl
      rcases List.mem_append.mp hl with h | h
      · exact h2 l h
      · exact h4 l h

/-- A deduplicated extension stays deduplicated after admitting one more link
whose `url` is fresh for the whole accumulated list. -/
theorem DedupExt_snoc :
    ∀ (ext base : List DownloadLink) (l : DownloadLink),
      DedupExt base ext → urlFresh (base ++ ext) l → DedupExt base (ext ++ [l]) := by
  intro ext
  induction ext with
  | nil =>
    intro base l _ hf
    exact ⟨by simpa using hf, trivial⟩
  | cons e es ih =>
    intro base l hd hf
    refine ⟨hd.1, ih (base ++ [e]) l hd.2 ?_⟩
    intro x hx
    apply hf
    rw [List.append_assoc] at hx
    simpa using hx

/-- A fold whose step either leaves the accumulator unchanged or appends a
single link with a fresh `url` preserves earlier links untouched and builds a
deduplicated extension. -/
theorem foldl_dedup {α : Type} (step : List DownloadLink → α → List DownloadLink)
    (hstep : ∀ acc x, step acc x = acc ∨ ∃ l, step acc x = acc ++ [l] ∧ urlFresh acc l) :
    ∀ (xs : List α) (base ext0 : List DownloadLink), DedupExt base ext0 →
      ∃ ext, xs.foldl step (base ++ ext0) = base ++ ext ∧ DedupExt base ext := by
  intro xs
  induction xs with
  | nil =>
    intro base ext0 h
    exact ⟨ext0, rfl, h⟩
  | cons x xs ih =>
    intro base ext0 h
    rcases hstep (base ++ ext0) x with heq | ⟨l, heq, hf⟩
    · rw [List.foldl_cons, heq]
      exact ih base ext0 h
    · rw [List.foldl_cons, heq, List.append_assoc]
      exact ih base (ext0 ++ [l]) (DedupExt_snoc ext0 base l h hf)

/-- A strategy-2 step either skips or appends exactly one fresh-`url` link. -/
theorem strat2Step_cases (acc : List DownloadLink) (href : List Char) :
    strat2Step acc href = acc ∨
      ∃ l, strat2Step acc href = acc ++ [l] ∧ urlFresh acc l := by
  unfold strat2Step
  split
  · split
    · left
      rfl
    · rename_i hany
      right
      refine ⟨_, rfl, ?_⟩
      intro x hx heq
      apply hany
      exact List.any_eq_true.mpr ⟨x, hx, by simp [heq]⟩
  · left
    rfl

/-- A strategy-3 step either skips or appends exactly one fresh-`url` link. -/
theorem strat3Step_cases (acc : List DownloadLink) (m : List Char) :
    strat3Step acc m = acc ∨
      ∃ l, strat3Step acc m = acc ++ [l] ∧ urlFresh acc l := by
  unfold strat3Step
  split
  · left
    rfl
  · rename_i hany
    right
    refine ⟨_, rfl, ?_⟩
    intro x hx heq
    apply hany
    exact List.any_eq_true.mpr ⟨x, hx, by simp [heq]⟩

/-- Every link appended by a strategy-1 step carries `source = "viking"`. -/
theorem strat1Step_tail (acc : List DownloadLink) (e : Element) :
    ∃ tl, strat1Step acc e = acc ++ tl ∧ ∀ l ∈ tl, l.source = chars "viking" := by
  unfold strat1Step
  cases e.href with
  | none => exact ⟨[], by simp, by simp⟩
  | some h =>
    by_cases hh : h.isEmpty = true
    · simp only [hh, if_true]
      exact ⟨[], by simp, by simp⟩
    · simp only [hh, if_false]
      refine ⟨_, rfl, ?_⟩
      intro l hl
      rw [List.mem_singleton.mp hl]

/-- The strategy-2 source classifier never yields `"direct"`. -/
theorem strat2Source_ne_direct (href : List Char) : strat2Source href ≠ chars "direct" := by
  unfold strat2Source
  cases hf : file_hosts.find? (fun h => containsSub h (lowerStr href)) with
  | none => decide
  | some h =>
    have hm : h ∈ file_hosts := List.mem_of_find?_eq_some hf
    have key : ∀ x ∈ file_hosts,
        removeAll (chars ".nz") (removeAll (chars ".com") x) ≠ chars "direct" := by decide
    exact key h hm

/-- Every link appended by a strategy-2 step has a source other than
`"direct"`. -/
theorem strat2Step_tail (acc : List DownloadLink) (href : List Char) :
    ∃ tl, strat2Step acc href = acc ++ tl ∧ ∀ l ∈ tl, l.source ≠ chars "direct" := by
  unfold strat2Step
  split
  · split
    · exact ⟨[], by simp, by simp⟩
    · refine ⟨_, rfl, ?_⟩
      intro l hl
      rw [List.mem_singleton.mp hl]
      exact strat2Source_ne_direct href
  · exact ⟨[], by simp, by simp⟩

/-- Every link appended by a strategy-3 step carries `source = "direct"`, the
inline six-token quality inference evaluated on its own `url`, and the inferred
file type. -/
theorem strat3Step_tail (acc : List DownloadLink) (m : List Char) :
    ∃ tl, strat3Step acc m = acc ++ tl ∧
      ∀ l ∈ tl, l.quality = firstAltMatch qualityAlts6 l.url ∧
        l.file_type = extSearch l.url ∧ l.source = chars "direct" := by
  unfold strat3Step
  split
  · exact ⟨[], by simp, by simp⟩
  · refine ⟨_, rfl, ?_⟩
    intro l hl
    rw [List.mem_singleton.mp hl]
    exact ⟨rfl, rfl, rfl⟩

/-! ## Claim theorems -/

/-- Claim C1, counterexample: on a page whose two anchors both read "Download"
and both target `/d/x`, the engine returns two `DownloadLink` records with the
identical `url` — strategy 1 appends without any duplicate check, so the
claimed global deduplication rule fails for two candidates discovered by the
same strategy. -/
theorem c1_dedup_counterexample :
    (extract_download_links dupDoc samplePageUrl).map DownloadLink.url =
        [chars "https://vik1ngfile.site/d/x", chars "https://vik1ngfile.site/d/x"] ∧
    ¬ List.Pairwise (fun a b => a.url ≠ b.url) (extract_download_links dupDoc samplePageUrl) := by
  constructor
  · decide
  · decide

/-- Claim C1, amended: the deduplication rule governs strategies 2 and 3 only —
the engine's result is the strategy-1 list followed by an extension in which
every link was admitted with a `url` distinct from all links accumulated
before it (so across strategies, and within strategies 2 and 3, the earlier
discovery and its metadata survive); strategy 1 itself appends one link per
qualifying element unconditionally. -/
theorem c1_dedup_amended :
    (∀ (d : Document) (page_url : List Char), ∃ ext,
        extract_download_links d page_url = strat1Links d ++ ext ∧
          DedupExt (strat1Links d) ext) ∧
    (∀ (acc : List DownloadLink) (e : Element) (h : List Char),
        e.href = some h → h.isEmpty = false →
        strat1Step acc e =
          acc ++ [⟨normalizeLink h, extract_quality e.rawText, chars "viking", none, none⟩]) := by
  constructor
  · intro d page_url
    obtain ⟨ext2, h2, hd2⟩ :=
      foldl_dedup strat2Step strat2Step_cases (strat2Hrefs d) (strat1Links d) []
        trivial
    rw [List.append_nil] at h2
    obtain ⟨ext3, h3, hd3⟩ :=
      foldl_dedup strat3Step strat3Step_cases (strat3Matches d.serialized) (strat1Links d)
        ext2 hd2
    refine ⟨ext3, ?_, hd3⟩
    unfold extract_download_links strat3Links strat2Links
    rw [h2, h3]
  · intro acc e h he hne
    simp [strat1Step, he, hne]

/-- Witness for the amended claim C1 at a concrete qualifying anchor. -/
theorem c1_dedup_amended_witness :
    strat1Step [] dupAnchor =
      [⟨chars "https://vik1ngfile.site/d/x", none, chars "viking", none, none⟩] := by
  rw [c1_dedup_amended.2 [] dupAnchor (chars "/d/x") rfl rfl]
  decide

/-- Claim C2, counterexample: the serialized page of `hdDoc` contains the bare
direct URL `http://cdn.example/movie_hd.mp4`; strategy 3 records it with
`quality = none`, while the §4.3 inference on that URL yields `"hd"` — the
inline strategy-3 quality scan omits the `HD|SD|FHD|UHD` tokens. -/
theorem c2_strat3_quality_counterexample :
    extract_download_links hdDoc samplePageUrl =
        [⟨hdUrl, none, chars "direct", none, some (chars "mp4")⟩] ∧
    extract_quality hdUrl = some (chars "hd") := by
  constructor
  · decide
  · decide

/-- Claim C2, amended: every link the engine returns with `source = "direct"`
(exactly the strategy-3 links: strategies 1 and 2 never produce that source)
carries as quality the first case-insensitive occurrence in its URL of a token
from the reduced set 1080p, 720p, 480p, 360p, 4K, 2K — not the full §4.3 set —
or absence if none occurs. -/
theorem c2_strat3_quality_amended (d : Document) (page_url : List Char) (l : DownloadLink)
    (hmem : l ∈ extract_download_links d page_url) (hsrc : l.source = chars "direct") :
    l.quality = firstAltMatch qualityAlts6 l.url := by
  obtain ⟨ext3, h3, hp3⟩ :=
    foldl_tail_prop strat3Step
      (fun l => l.quality = firstAltMatch qualityAlts6 l.url ∧
        l.file_type = extSearch l.url ∧ l.source = chars "direct")
      strat3Step_tail (strat3Matches d.serialized) (strat2Links d (strat1Links d))
  rw [show extract_download_links d page_url =
      (strat3Matches d.serialized).foldl strat3Step (strat2Links d (strat1Links d)) from rfl,
    h3] at hmem
  rcases List.mem_append.mp hmem with hmem2 | hmem3
  · exfalso
    obtain ⟨ext2, h2, hp2⟩ :=
      foldl_tail_prop strat2Step (fun l => l.source ≠ chars "direct") strat2Step_tail
        (strat2Hrefs d) (strat1Links d)
    rw [show strat2Links d (strat1Links d) =
        (strat2Hrefs d).foldl strat2Step (strat1Links d) from rfl, h2] at hmem2
    rcases List.mem_append.mp hmem2 with hmem1 | hmemx
    · obtain ⟨ext1, h1, hp1⟩ :=
        foldl_tail_prop strat1Step (fun l => l.source = chars "viking") strat1Step_tail
          (downloadElements d) []
      rw [show strat1Links d = (downloadElements d).foldl strat1Step [] from rfl, h1] at hmem1
      rcases List.mem_append.mp hmem1 with hnil | hmemv
      · exact absurd hnil (List.not_mem_nil l)
      · have : chars "viking" = chars "direct" := by rw [← hp1 l hmemv, hsrc]
        exact absurd this (by decide)
    · exact hp2 l hmemx hsrc
  · exact (hp3 l hmem3).1

/-- Witness for the amended claim C2 at the concrete strategy-3 link of
`hdDoc`. -/
theorem c2_strat3_quality_amended_witness :
    (⟨hdUrl, none, chars "direct", none, some (chars "mp4")⟩ : DownloadLink).quality =
      firstAltMatch qualityAlts6 hdUrl :=
  c2_strat3_quality_amended hdDoc samplePageUrl
    ⟨hdUrl, none, chars "direct", none, some (chars "mp4")⟩ (by decide) rfl

/-- `get_download_links` on a resolving URL, unfolded up to the fetch result:
the common shape used by the claims about the caller-facing record. -/
theorem gdl_unfold (fetch : List Char → Option Document) (url fid : List Char)
    (hid : extract_file_id url = some fid) (hemp : fid.isEmpty = false) :
    get_download_links fetch url =
      match fetch (if (chars "http").isPrefixOf url then url
          else BASE_URL ++ chars "/f/" ++ fid) with
      | none =>
        Except.ok ⟨fid, none, none, none, [],
          if (chars "http").isPrefixOf url then url else BASE_URL ++ chars "/f/" ++ fid⟩
      | some doc =>
        Except.ok ⟨fid, extract_file_name doc, extract_file_size doc, extract_upload_date doc,
          extract_download_links doc
            (if (chars "http").isPrefixOf url then url else BASE_URL ++ chars "/f/" ++ fid),
          if (chars "http").isPrefixOf url then url else BASE_URL ++ chars "/f/" ++ fid⟩ := by
  simp [get_download_links, hid, hemp]

/-- Claim C3: when the identifier resolves but the fetch collaborator fails,
`get_download_links` raises nothing and still returns a `VikingFileInfo`
carrying the resolved `file_id` and the normalized page URL, with an empty
`download_links` sequence and `file_name`, `file_size` and `upload_date` all
absent. -/
theorem c3_fetch_failure_partial (fetch : List Char → Option Document) (url fid : List Char)
    (hid : extract_file_id url = some fid)
    (hfail : fetch (if (chars "http").isPrefixOf url then url
      else BASE_URL ++ chars "/f/" ++ fid) = none) :
    get_download_links fetch url =
      Except.ok ⟨fid, none, none, none, [],
        if (chars "http").isPrefixOf url then url else BASE_URL ++ chars "/f/" ++ fid⟩ := by
  have hne : fid ≠ [] := extract_file_id_some_ne_nil hid
  have hemp : fid.isEmpty = false := by
    cases fid with
    | nil => exact absurd rfl hne
    | cons a as => rfl
  rw [gdl_unfold fetch url fid hid hemp, hfail]

/-- Witness for claim C3 at a concrete URL and an always-failing fetch. -/
theorem c3_fetch_failure_partial_witness :
    get_download_links (fun _ => none) samplePageUrl =
      Except.ok ⟨chars "oDAbw3OOmy", none, none, none, [], samplePageUrl⟩ := by
  have h := c3_fetch_failure_partial (fun _ => none) samplePageUrl (chars "oDAbw3OOmy")
    (by decide) rfl
  rw [h, if_pos (show (chars "http").isPrefixOf samplePageUrl = true by decide)]

/-- Claim C5: `get_download_links` raises (returns an error rather than any
partial result) exactly when the identifier resolver yields absence for the
input URL; whenever an identifier is resolved, no error is raised. -/
theorem c5_error_iff_unresolved (fetch : List Char → Option Document) (url : List Char) :
    isErr (get_download_links fetch url) = true ↔ extract_file_id url = none := by
  cases hid : extract_file_id url with
  | none => simp [get_download_links, hid, isErr]
  | some fid =>
    have hne : fid ≠ [] := extract_file_id_some_ne_nil hid
    have hemp : fid.isEmpty = false := by
      cases fid with
      | nil => exact absurd rfl hne
      | cons a as => rfl
    rw [gdl_unfold fetch url fid hid hemp]
    cases hf : fetch (if (chars "http").isPrefixOf url then url
        else BASE_URL ++ chars "/f/" ++ fid) with
    | none => simp [isErr]
    | some doc => simp [isErr]

/-- Claim C10: whenever an identifier is resolved, the returned record's
`page_url` is the input URL unchanged if the input starts with `http`, and the
fixed form `https://vik1ngfile.site/f/<file_id>` otherwise — so a scheme-less
input matched via a `/file/<id>` pattern is reported under the `/f/` path
form. -/
theorem c10_page_url (fetch : List Char → Option Document) (url fid : List Char)
    (hid : extract_file_id url = some fid) :
    ∃ info, get_download_links fetch url = Except.ok info ∧ info.file_id = fid ∧
      info.page_url =
        (if (chars "http").isPrefixOf url then url else BASE_URL ++ chars "/f/" ++ fid) := by
  have hne : fid ≠ [] := extract_file_id_some_ne_nil hid
  have hemp : fid.isEmpty = false := by
    cases fid with
    | nil => exact absurd rfl hne
    | cons a as => rfl
  rw [gdl_unfold fetch url fid hid hemp]
  cases hf : fetch (if (chars "http").isPrefixOf url then url
      else BASE_URL ++ chars "/f/" ++ fid) with
  | none => exact ⟨_, rfl, rfl, rfl⟩
  | some doc => exact ⟨_, rfl, rfl, rfl⟩

/-- Witness for claim C10 at a concrete scheme-less `/file/<id>` input. -/
theorem c10_page_url_witness :
    ∃ info, get_download_links (fun _ => none) (chars "vik1ngfile.site/file/Ab3") =
        Except.ok info ∧
      info.file_id = chars "Ab3" ∧ info.page_url = chars "https://vik1ngfile.site/f/Ab3" := by
  obtain ⟨info, h1, h2, h3⟩ :=
    c10_page_url (fun _ => none) (chars "vik1ngfile.site/file/Ab3") (chars "Ab3") (by decide)
  refine ⟨info, h1, h2, ?_⟩
  rw [h3]
  decide

/-- Claim C4: the resolver tries the four patterns (host-qualified `/f/`,
host-qualified `/file/`, path-only `/f/`, path-only `/file/`) strictly in that
order and returns the first capturing-group match; at any occurrence
`<lit><id><t>` with `<id>` a non-empty alphanumeric run made maximal by `<t>`,
and with no hit of an earlier-priority pattern elsewhere in the URL nor of the
same pattern earlier in the URL, the resolved identifier is exactly `<id>`;
and a URL on which all four patterns fail resolves to absence, not an error. -/
theorem c4_file_id_resolver :
    (∀ url, extract_file_id url =
        (reSearchIdPat idPat1 url <|> reSearchIdPat idPat2 url <|>
          reSearchIdPat idPat3 url <|> reSearchIdPat idPat4 url)) ∧
    (∀ p id t, id ≠ [] → (∀ c ∈ id, isAlnumChar c = true) → headNotAlnum t = true →
      (∀ q, q <:+ p → q ≠ [] → tryAt idPat1 (q ++ (idPat1 ++ (id ++ t))) = none) →
      extract_file_id (p ++ (idPat1 ++ (id ++ t))) = some id) ∧
    (∀ p id t, id ≠ [] → (∀ c ∈ id, isAlnumChar c = true) → headNotAlnum t = true →
      reSearchIdPat idPat1 (p ++ (idPat2 ++ (id ++ t))) = none →
      (∀ q, q <:+ p → q ≠ [] → tryAt idPat2 (q ++ (idPat2 ++ (id ++ t))) = none) →
      extract_file_id (p ++ (idPat2 ++ (id ++ t))) = some id) ∧
    (∀ p id t, id ≠ [] → (∀ c ∈ id, isAlnumChar c = true) → headNotAlnum t = true →
      reSearchIdPat idPat1 (p ++ (idPat3 ++ (id ++ t))) = none →
      reSearchIdPat idPat2 (p ++ (idPat3 ++ (id ++ t))) = none →
      (∀ q, q <:+ p → q ≠ [] → tryAt idPat3 (q ++ (idPat3 ++ (id ++ t))) = none) →
      extract_file_id (p ++ (idPat3 ++ (id ++ t))) = some id) ∧
    (∀ p id t, id ≠ [] → (∀ c ∈ id, isAlnumChar c = true) → headNotAlnum t = true →
      reSearchIdPat idPat1 (p ++ (idPat4 ++ (id ++ t))) = none →
      reSearchIdPat idPat2 (p ++ (idPat4 ++ (id ++ t))) = none →
      reSearchIdPat idPat3 (p ++ (idPat4 ++ (id ++ t))) = none →
      (∀ q, q <:+ p → q ≠ [] → tryAt idPat4 (q ++ (idPat4 ++ (id ++ t))) = none) →
      extract_file_id (p ++ (idPat4 ++ (id ++ t))) = some id) ∧
    (∀ url, reSearchIdPat idPat1 url = none → reSearchIdPat idPat2 url = none →
      reSearchIdPat idPat3 url = none → reSearchIdPat idPat4 url = none →
      extract_file_id url = none) := by
  have horder : ∀ url, extract_file_id url =
      (reSearchIdPat idPat1 url <|> reSearchIdPat idPat2 url <|>
        reSearchIdPat idPat3 url <|> reSearchIdPat idPat4 url) := by
    intro url
    unfold extract_file_id
    cases reSearchIdPat idPat1 url with
    | some g => rfl
    | none =>
      cases reSearchIdPat idPat2 url with
      | some g => rfl
      | none =>
        cases reSearchIdPat idPat3 url with
        | some g => rfl
        | none => rfl
  refine ⟨horder, ?_, ?_, ?_, ?_, ?_⟩
  · intro p id t hid h1 h2 H
    have hh := reSearchIdPat_hit idPat1 p id t (by decide) hid h1 h2 H
    rw [horder, hh]
    rfl
  · intro p id t hid h1 h2 hn1 H
    have hh := reSearchIdPat_hit idPat2 p id t (by decide) hid h1 h2 H
    rw [horder, hn1, hh]
    rfl
  · intro p id t hid h1 h2 hn1 hn2 H
    have hh := reSearchIdPat_hit idPat3 p id t (by decide) hid h1 h2 H
    rw [horder, hn1, hn2, hh]
    rfl
  · intro p id t hid h1 h2 hn1 hn2 hn3 H
    have hh := reSearchIdPat_hit idPat4 p id t (by decide) hid h1 h2 H
    rw [horder, hn1, hn2, hn3, hh]
    rfl
  · intro url hn1 hn2 hn3 hn4
    rw [horder, hn1, hn2, hn3, hn4]
    rfl

/-- Witness for claim C4: the host-qualified conjunct at the sample URL, and
the absence conjunct at a URL matching no pattern. -/
theorem c4_file_id_resolver_witness :
    extract_file_id samplePageUrl = some (chars "oDAbw3OOmy") ∧
    extract_file_id (chars "https://example.com/watch?v=1") = none := by
  constructor
  · have key : ∀ q ∈ (chars "https://").tails, q ≠ [] →
        tryAt idPat1 (q ++ (idPat1 ++ (chars "oDAbw3OOmy" ++ []))) = none := by decide
    have h := c4_file_id_resolver.2.1 (chars "https://") (chars "oDAbw3OOmy") []
      (by decide) (by decide) rfl
      (fun q hq hne => key q ((List.mem_tails q (chars "https://")).mpr hq) hne)
    have heq : samplePageUrl = chars "https://" ++ (idPat1 ++ (chars "oDAbw3OOmy" ++ [])) := by
      decide
    rw [heq]
    exact h
  · exact c4_file_id_resolver.2.2.2.2.2 (chars "https://example.com/watch?v=1")
      (by decide) (by decide) (by decide) (by decide)

/-- Claim C6: when the lower-cased target contains a known host substring and
the URL is not yet accumulated, strategy 2 appends the raw (non-normalized)
target as the link's `url` and classifies `source` as the first host substring
in the fixed list order contained in the lower-cased target, with a trailing
`.com` or `.nz` suffix stripped (e.g. `drive.google.com` becomes
`drive.google`). -/
theorem c6_strat2_source (acc : List DownloadLink) (href h : List Char)
    (hfind : file_hosts.find? (fun x => containsSub x (lowerStr href)) = some h)
    (hfresh : acc.any (fun dl => dl.url == href) = false) :
    strat2Step acc href = acc ++ [⟨href, none, hostSuffixStripped h, none, none⟩] ∧
      h ∈ file_hosts := by
  have hmem : h ∈ file_hosts := List.mem_of_find?_eq_some hfind
  have hpa := List.find?_some hfind
  have hany : file_hosts.any (fun x => containsSub x (lowerStr href)) = true :=
    List.any_eq_true.mpr ⟨h, hmem, hpa⟩
  have hstrip : ∀ x ∈ file_hosts,
      removeAll (chars ".nz") (removeAll (chars ".com") x) = hostSuffixStripped x := by decide
  have hsrc : strat2Source href = removeAll (chars ".nz") (removeAll (chars ".com") h) := by
    unfold strat2Source
    split
    · rename_i h' heq
      rw [hfind] at heq
      cases heq
      rfl
    · rename_i heq
      rw [hfind] at heq
      cases heq
  refine ⟨?_, hmem⟩
  unfold strat2Step
  rw [hany, if_pos rfl, hfresh, if_neg (by simp), hsrc, hstrip h hmem]

/-- Witness for claim C6 at the spec's own scenario. -/
theorem c6_strat2_source_witness :
    strat2Step [] (chars "https://drive.google.com/file/d/X") =
      [⟨chars "https://drive.google.com/file/d/X", none, chars "drive.google", none, none⟩] := by
  have h := (c6_strat2_source [] (chars "https://drive.google.com/file/d/X")
    (chars "drive.google.com") (by decide) rfl).1
  rw [h]
  decide

/-- Claim C7, counterexample: `ftp://a` starts with a URI scheme, but the
normalizer does not return it unchanged — the source tests for the literal
prefix `http`, not for a scheme. -/
theorem c7_scheme_counterexample :
    startsWithScheme (chars "ftp://a") = true ∧
      normalizeLink (chars "ftp://a") ≠ chars "ftp://a" := by
  constructor
  · decide
  · decide

/-- Claim C7, amended: the normalizer returns the reference unchanged whenever
it starts with the literal text `http` (rather than with an arbitrary scheme);
the base origin concatenated with the reference whenever it does not start with
`http` but starts with `/`; and the base origin plus `/` plus the reference
otherwise — a pure function of its argument. -/
theorem c7_normalizer_amended (href : List Char) :
    ((chars "http").isPrefixOf href = true → normalizeLink href = href) ∧
    ((chars "http").isPrefixOf href = false → (chars "/").isPrefixOf href = true →
      normalizeLink href = BASE_URL ++ href) ∧
    ((chars "http").isPrefixOf href = false → (chars "/").isPrefixOf href = false →
      normalizeLink href = BASE_URL ++ chars "/" ++ href) := by
  refine ⟨?_, ?_, ?_⟩
  · intro h1
    simp [normalizeLink, h1]
  · intro h1 h2
    simp [normalizeLink, h1, h2]
  · intro h1 h2
    simp [normalizeLink, h1, h2]

/-- Witness for the amended claim C7 at the spec's own scenario reference. -/
theorem c7_normalizer_amended_witness :
    normalizeLink (chars "/d/abc") = BASE_URL ++ chars "/d/abc" :=
  (c7_normalizer_amended (chars "/d/abc")).2.1 (by decide) (by decide)

/-- Claim C9: the Link Normalizer is idempotent — its output always starts
with `http` (either the input did, or the output starts with the base origin),
so normalizing a second time changes nothing. -/
theorem c9_normalize_idempotent (x : List Char) :
    normalizeLink (normalizeLink x) = normalizeLink x := by
  have hb : ∀ r, (chars "http").isPrefixOf (BASE_URL ++ r) = true := fun r =>
    isPrefixOf_app_of (chars "http") BASE_URL r (by decide)
  by_cases h1 : (chars "http").isPrefixOf x = true
  · simp [normalizeLink, h1]
  · have h1f : (chars "http").isPrefixOf x = false := by
      cases hx : (chars "http").isPrefixOf x with
      | true => exact absurd hx h1
      | false => rfl
    by_cases h2 : (chars "/").isPrefixOf x = true
    · have hx : normalizeLink x = BASE_URL ++ x := by
        simp [normalizeLink, h1f, h2]
      rw [hx]
      simp [normalizeLink, hb x]
    · have h2f : (chars "/").isPrefixOf x = false := by
        cases hx : (chars "/").isPrefixOf x with
        | true => exact absurd hx h2
        | false => rfl
      have hx : normalizeLink x = BASE_URL ++ chars "/" ++ x := by
        simp [normalizeLink, h1f, h2f]
      rw [hx, List.append_assoc]
      simp [normalizeLink, hb (chars "/" ++ x)]

/-- Round trip for `DownloadLink`: deserializing a serialized record restores
it field for field. -/
theorem dl_roundtrip (dl : DownloadLink) : DownloadLink.from_dict dl.to_dict = some dl := by
  obtain ⟨u, q, s, fs, ft⟩ := dl
  cases q <;> cases fs <;> cases ft <;> rfl

/-- Round trip of the serialized `download_links` list, stated on the `mapM`
worker loop. -/
theorem links_loop (ls acc : List DownloadLink) :
    List.mapM.loop linkOfVal (ls.map (fun l => PyVal.pydict l.to_dict)) acc =
      some (acc.reverse ++ ls) := by
  induction ls generalizing acc with
  | nil => simp [List.mapM.loop]
  | cons l ls ih =>
    have hl : linkOfVal (PyVal.pydict l.to_dict) = some l := dl_roundtrip l
    simp [List.mapM.loop, hl, ih (l :: acc)]

/-- Round trip for `VikingFileInfo`. -/
theorem vfi_roundtrip (v : VikingFileInfo) : VikingFileInfo.from_dict v.to_dict = some v := by
  obtain ⟨fid, fn, fs, ud, dls, pu⟩ := v
  cases fn <;> cases fs <;> cases ud <;>
    simp +decide [VikingFileInfo.to_dict, VikingFileInfo.from_dict, pyGet, asStr, asOptStr,
      optStrVal, linksOfVal, links_loop]

/-- Claim C8: for both record types, deserializing the serialization reproduces
the record field for field, and deserialization of a mapping with omitted keys
does not fail on the missing keys but fills in the documented defaults (empty
string for `url`, `file_id` and `page_url`, `"viking"` for `source`, absence
for the optional fields, the empty sequence for `download_links`). -/
theorem c8_roundtrip_defaults :
    (∀ dl : DownloadLink, DownloadLink.from_dict dl.to_dict = some dl) ∧
    (∀ v : VikingFileInfo, VikingFileInfo.from_dict v.to_dict = some v) ∧
    (∀ (d : List (List Char × PyVal)) (dl : DownloadLink),
      DownloadLink.from_dict d = some dl →
      (pyGet d (chars "url") = none → dl.url = []) ∧
      (pyGet d (chars "quality") = none → dl.quality = none) ∧
      (pyGet d (chars "source") = none → dl.source = chars "viking") ∧
      (pyGet d (chars "file_size") = none → dl.file_size = none) ∧
      (pyGet d (chars "file_type") = none → dl.file_type = none)) ∧
    (∀ (d : List (List Char × PyVal)) (v : VikingFileInfo),
      VikingFileInfo.from_dict d = some v →
      (pyGet d (chars "file_id") = none → v.file_id = []) ∧
      (pyGet d (chars "file_name") = none → v.file_name = none) ∧
      (pyGet d (chars "file_size") = none → v.file_size = none) ∧
      (pyGet d (chars "upload_date") = none → v.upload_date = none) ∧
      (pyGet d (chars "download_links") = none → v.download_links = []) ∧
      (pyGet d (chars "page_url") = none → v.page_url = [])) := by
  refine ⟨dl_roundtrip, vfi_roundtrip, ?_, ?_⟩
  · intro d dl hsome
    unfold DownloadLink.from_dict at hsome
    split at hsome
    · rename_i u q src fsz ft hu hq hsrc hfs hft
      cases hsome
      refine ⟨?_, ?_, ?_, ?_, ?_⟩
      · intro hk
        rw [hk] at hu
        cases hu
        rfl
      · intro hk
        rw [hk] at hq
        cases hq
        rfl
      · intro hk
        rw [hk] at hsrc
        cases hsrc
        rfl
      · intro hk
        rw [hk] at hfs
        cases hfs
        rfl
      · intro hk
        rw [hk] at hft
        cases hft
        rfl
    · cases hsome
  · intro d v hsome
    unfold VikingFileInfo.from_dict at hsome
    split at hsome
    · rename_i fid fn fsz ud dls pu hfid hfn hfs hud hdls hpu
      cases hsome
      refine ⟨?_, ?_, ?_, ?_, ?_, ?_⟩
      · intro hk
        rw [hk] at hfid
        cases hfid
        rfl
      · intro hk
        rw [hk] at hfn
        cases hfn
        rfl
      · intro hk
        rw [hk] at hfs
        cases hfs
        rfl
      · intro hk
        rw [hk] at hud
        cases hud
        rfl
      · intro hk
        rw [hk] at hdls
        cases hdls
        rfl
      · intro hk
        rw [hk] at hpu
        cases hpu
        rfl
    · cases hsome

/-- Witness for claim C8: a concrete round trip, and deserialization of the
empty mapping yielding every documented default. -/
theorem c8_roundtrip_defaults_witness :
    DownloadLink.from_dict (DownloadLink.to_dict
        ⟨chars "https://cdn.example/movie_1080p.mp4", some (chars "1080p"), chars "direct",
          none, some (chars "mp4")⟩) =
      some ⟨chars "https://cdn.example/movie_1080p.mp4", some (chars "1080p"), chars "direct",
        none, some (chars "mp4")⟩ ∧
    DownloadLink.from_dict [] = some ⟨[], none, chars "viking", none, none⟩ ∧
    (⟨[], none, chars "viking", none, none⟩ : DownloadLink).quality = none ∧
    VikingFileInfo.from_dict [] = some ⟨[], none, none, none, [], []⟩ ∧
    (⟨[], none, none, none, [], []⟩ : VikingFileInfo).download_links = [] := by
  have h0 : DownloadLink.from_dict [] = some ⟨[], none, chars "viking", none, none⟩ := rfl
  have h1 : VikingFileInfo.from_dict [] = some ⟨[], none, none, none, [], []⟩ := rfl
  exact ⟨c8_roundtrip_defaults.1 _, h0,
    (c8_roundtrip_defaults.2.2.1 [] _ h0).2.1 rfl, h1,
    (c8_roundtrip_defaults.2.2.2 [] _ h1).2.2.2.2.1 rfl⟩
